import Mathlib

/-!
Verification of the entity/field data-binding system of
`src/assets/src/data/scripts/bafoundation/entity/_field.py`.

The six field descriptor classes (`Field`, `CompoundField`, `ListField`,
`DictField`, `CompoundListField`, `CompoundDictField`) are embedded as Lean
structures and their methods as pure functions over an explicit model of
Python values (`PyVal`).  Python in-place mutation is modelled by explicit
state passing: a method that mutates a container is rendered as a function
returning the container's final state.  Exceptions are modelled with
`Except`, and `logging.error` diagnostics are collected in a `List Diag`.

The collaborating modules `bafoundation.entity._value` and `._support`
(`TypedValue`, `CompoundValue`, `BoundCompoundValue`) are not part of the
sources; the parts of their contract that `_field.py` consumes are modelled
from the specification and are marked `Modelled from the spec:` below.
-/

namespace BaFoundation

mutual
/-- A Python document value: `None`, booleans, integers, strings, lists and
dicts.  Lists and dicts are given as mutually-inductive spine types so that
decidable equality is structurally computable. -/
inductive PyVal : Type where
  | none : PyVal
  | bool (b : Bool) : PyVal
  | int (n : Int) : PyVal
  | str (s : String) : PyVal
  | list (xs : PyList) : PyVal
  | dict (entries : PyDict) : PyVal

/-- Spine of a Python list of `PyVal`s. -/
inductive PyList : Type where
  | nil : PyList
  | cons (x : PyVal) (xs : PyList) : PyList

/-- Spine of a Python dict with `PyVal` keys and values, in insertion order. -/
inductive PyDict : Type where
  | nil : PyDict
  | cons (k : PyVal) (v : PyVal) (rest : PyDict) : PyDict
end

deriving instance DecidableEq for PyVal, PyList, PyDict

/-- Build a `PyList` from a Lean list. -/
def PyList.ofList : List PyVal → PyList
  | [] => .nil
  | x :: xs => .cons x (PyList.ofList xs)

/-- Python truthiness test for an empty list. -/
def PyList.isEmpty : PyList → Bool
  | .nil => true
  | .cons _ _ => false

/-- Build a `PyDict` from a Lean association list. -/
def PyDict.ofList : List (PyVal × PyVal) → PyDict
  | [] => .nil
  | (k, v) :: rest => .cons k v (PyDict.ofList rest)

/-- Python truthiness test for an empty dict. -/
def PyDict.isEmpty : PyDict → Bool
  | .nil => true
  | .cons _ _ _ => false

/-- Lookup `d[k]`, first occurrence. -/
def PyDict.get : PyDict → PyVal → Option PyVal
  | .nil, _ => Option.none
  | .cons k0 v0 rest, k => if k0 = k then some v0 else PyDict.get rest k

/-- Assignment `d[k] = v`: replace the first binding of `k` in place, else append
(matching CPython dict semantics, whose keys are unique). -/
def PyDict.set : PyDict → PyVal → PyVal → PyDict
  | .nil, k, v => .cons k v .nil
  | .cons k0 v0 rest, k, v =>
    if k0 = k then .cons k v rest else .cons k0 v0 (PyDict.set rest k v)

/-- Deletion `del d[k]`: remove the bindings of `k`. -/
def PyDict.del : PyDict → PyVal → PyDict
  | .nil, _ => .nil
  | .cons k0 v0 rest, k =>
    if k0 = k then PyDict.del rest k else .cons k0 v0 (PyDict.del rest k)

/-- Python truthiness of a value, as used by `not data`. -/
def pyFalsy : PyVal → Bool
  | .none => true
  | .bool b => !b
  | .int n => n == 0
  | .str s => s == ""
  | .list xs => xs.isEmpty
  | .dict es => es.isEmpty

/-- A raised Python exception (`TypeError` / `ValueError` with its message). -/
inductive PyErr : Type where
  | typeError (msg : String) : PyErr
  | valueError (msg : String) : PyErr
deriving DecidableEq

/-- A `logging.error` diagnostic emitted by `_field.py`. -/
inductive Diag : Type where
  | nonListData : Diag
  | nonDictData : Diag
  | invalidKeyType : Diag
deriving DecidableEq

/-- Modelled from the spec: the scalar value-validator contract (`TypedValue`
of the absent `bafoundation.entity._value` module).  It owns a default datum,
its own `store_default` flag, and an opaque scalar validator
`filter_input(data, error)` that returns a sanitized value or raises. -/
structure TypedValue : Type where
  default : PyVal
  store_default : Bool
  filter : PyVal → Bool → Except PyErr PyVal

/-- Modelled from the spec: `TypedValue.get_default_data()` returns the
value's default datum. -/
def TypedValue.get_default_data (tv : TypedValue) : PyVal := tv.default

/-- Modelled from the spec: `TypedValue.prune_data(data)` is true iff the
value's own `store_default` flag is false and `data` equals the default
(the spec sentence `prune(data) → bool: true iff store_default is false and
data == default`, stated at the level the delegation bottoms out). -/
def TypedValue.prune_data (tv : TypedValue) (data : PyVal) : Bool :=
  !tv.store_default && (data == tv.default)

/-- Modelled from the spec: `TypedValue.filter_input(data, error)`. -/
def TypedValue.filter_input (tv : TypedValue) (data : PyVal) (error : Bool) :
    Except PyErr PyVal :=
  tv.filter data error

/-- The `class Field` of `_field.py`: a scalar field.  `__init__` stores the key,
the value descriptor and the `store_default` argument (as `_store_default`). -/
structure Field : Type where
  d_key : String
  d_value : TypedValue
  store_default : Bool

/-- Method `Field.get_default_data`: delegates to the value descriptor. -/
def Field.get_default_data (f : Field) : PyVal :=
  f.d_value.get_default_data

/-- Method `Field.filter_input`: delegates to the value descriptor. -/
def Field.filter_input (f : Field) (data : PyVal) (error : Bool) :
    Except PyErr PyVal :=
  f.d_value.filter_input data error

/-- Method `Field.prune_data`: delegates to the value descriptor (the field's own
`_store_default` attribute is not consulted). -/
def Field.prune_data (f : Field) (data : PyVal) : Bool :=
  f.d_value.prune_data data

/-- Modelled from the spec: a `CompoundValue` schema node (absent
`bafoundation.entity._value` module).  `uid` stands for the Python object's
identity (two references denote the same object iff their `uid`s agree), so
the source's `is` test is rendered as `uid` equality.  `fields` is the
schema's ordered field set, compared on assignment.  `d_data` is the optional
backing document of an attached schema value (an entity); bare schema
templates have none, matching `getattr(value, 'd_data', None)`. -/
structure CompoundValue : Type where
  uid : Nat
  fields : List String
  d_data : Option PyVal

/-- Modelled from the spec: `CompoundValue.get_fields()` returns the schema's
ordered field set. -/
def CompoundValue.get_fields (c : CompoundValue) : List String := c.fields

/-- A Python object appearing as the right-hand side of a descriptor
assignment: a `BoundCompoundValue` (schema descriptor paired with its live
document slice, from `_support`), a bare `CompoundValue`, a list, a dict, or
any other object. -/
inductive Obj : Type where
  | bound (d_value : CompoundValue) (d_data : PyVal) : Obj
  | compound (c : CompoundValue) : Obj
  | pylist (xs : List Obj) : Obj
  | pydict (entries : List (PyVal × Obj)) : Obj
  | other : Obj

/-- The `isinstance(value, BoundCompoundValue)` test. -/
def Obj.isBoundCompoundValue : Obj → Bool
  | .bound _ _ => true
  | _ => false

/-- The `i.d_value is self.d_value` identity test of `__set__`, rendered on
object identities. -/
def Obj.boundSchemaIs (c : CompoundValue) : Obj → Bool
  | .bound dv _ => dv.uid == c.uid
  | _ => false

/-- Access `i.d_data`: the backing slice of a bound compound value. -/
def Obj.boundData : Obj → PyVal
  | .bound _ d => d
  | _ => .none

/-- The `value1` of `CompoundField.__set__`: the schema descriptor of the
assigned object (`value.d_value` for a bound view, `value` itself for a bare
`CompoundValue`), or `none` when the object is neither, which raises. -/
def Obj.valueSchema : Obj → Option CompoundValue
  | .bound dv _ => some dv
  | .compound c => some c
  | _ => Option.none

/-- The `getattr(value, 'd_data', None)` of `CompoundField.__set__`. -/
def Obj.dDataAttr : Obj → Option PyVal
  | .bound _ d => some d
  | .compound c => c.d_data
  | _ => Option.none

/-- Python `copy.deepcopy` on a document value.  `PyVal`s are immutable mathematical
values, so the structural copy Python produces is the value itself; the
freshness of the copy (no aliasing with the source) is what lets the model
treat the stored slice as independent of the source. -/
def deepcopy (v : PyVal) : PyVal := v

/-- The `class CompoundField` of `_field.py`. -/
structure CompoundField : Type where
  d_key : String
  d_value : CompoundValue
  store_default : Bool

/-- Method `CompoundField.__set__(obj, value)` acting on `obj.d_data`:
reject objects that are neither `BoundCompoundValue` nor `CompoundValue`,
then objects whose `d_data` is absent or `None`, then schemas whose field
set differs from this field's; otherwise store a deep copy of the source
slice under the field's key. -/
def CompoundField.set (f : CompoundField) (objData : PyDict) (value : Obj) :
    Except PyErr PyDict :=
  match value.valueSchema with
  | Option.none =>
    .error (.valueError ("Cant assign from object type"))
  | some value1 =>
    match value.dDataAttr with
    | Option.none => .error (.valueError ("Cant assign from unbound object"))
    | some data =>
      if data = PyVal.none then
        .error (.valueError ("Cant assign from unbound object"))
      else if f.d_value.get_fields ≠ value1.get_fields then
        .error (.valueError ("sub-fields do not match"))
      else
        .ok (objData.set (.str f.d_key) (deepcopy data))

/-- The `class CompoundListField` of `_field.py`. -/
structure CompoundListField : Type where
  d_key : String
  d_value : CompoundValue
  store_default : Bool

/-- Method `CompoundListField.__set__(obj, value)` acting on `obj.d_data`: a
non-list raises `TypeError`; a list whose members are not all
`BoundCompoundValue`s with exactly this field's schema object raises
`ValueError`; otherwise the document slice becomes the members' backing
slices, taken by reference and without re-validation. -/
def CompoundListField.set (f : CompoundListField) (objData : PyDict)
    (value : Obj) : Except PyErr PyDict :=
  match value with
  | .pylist xs =>
    if !(xs.all Obj.isBoundCompoundValue)
        || !(xs.all (Obj.boundSchemaIs f.d_value)) then
      .error (.valueError
        ("CompoundListField assignment must be a list containing only its existing children."))
    else
      .ok (objData.set (.str f.d_key)
        (.list (PyList.ofList (xs.map Obj.boundData))))
  | _ => .error (.typeError ("CompoundListField expected list value on set."))

/-- The `class CompoundDictField` of `_field.py`.  `d_keytype` is the
`isinstance` test against the declared key type. -/
structure CompoundDictField : Type where
  d_key : String
  d_keytype : PyVal → Bool
  d_value : CompoundValue
  store_default : Bool

/-- Method `CompoundDictField.__set__(obj, value)` acting on `obj.d_data`: a
non-dict raises `TypeError`; a dict with a key failing the key-type test or
a value that is not a `BoundCompoundValue` of exactly this field's schema
object raises `ValueError`; otherwise the slice becomes
`{key: child.d_data}`.  (The stray debug `print` of the source has no
data effect and is not modelled.) -/
def CompoundDictField.set (f : CompoundDictField) (objData : PyDict)
    (value : Obj) : Except PyErr PyDict :=
  match value with
  | .pydict entries =>
    if !(entries.all (fun p => f.d_keytype p.1))
        || !(entries.all (fun p => p.2.isBoundCompoundValue))
        || !(entries.all (fun p => Obj.boundSchemaIs f.d_value p.2)) then
      .error (.valueError
        ("CompoundDictField assignment must be a dict containing only its existing children."))
    else
      .ok (objData.set (.str f.d_key)
        (.dict (PyDict.ofList (entries.map (fun p => (p.1, p.2.boundData))))))
  | _ => .error (.typeError ("CompoundDictField expected dict value on set."))

/-- The `class ListField` of `_field.py`. -/
structure ListField : Type where
  d_key : String
  d_value : TypedValue
  store_default : Bool

/-- The element loop of `ListField.filter_input`: `data[i] =
self.d_value.filter_input(entry, error=error)` for each index in order; a
raise from the scalar validator propagates. -/
def ListField.filterElems (f : ListField) (error : Bool) :
    PyList → Except PyErr PyList
  | .nil => .ok .nil
  | .cons x xs =>
    match f.d_value.filter_input x error with
    | .error e => .error e
    | .ok y =>
      match ListField.filterElems f error xs with
      | .error e => .error e
      | .ok ys => .ok (.cons y ys)

/-- Method `ListField.filter_input(data, error)`: a non-list raises `TypeError`
when `error`, else logs and is replaced by `[]`; a list has every element
validated in place, in order. -/
def ListField.filter_input (f : ListField) (data : PyVal) (error : Bool) :
    Except PyErr (PyVal × List Diag) :=
  match data with
  | .list xs =>
    match ListField.filterElems f error xs with
    | .error e => .error e
    | .ok ys => .ok (.list ys, [])
  | _ =>
    if error then .error (.typeError ("list value expected"))
    else .ok (.list .nil, [.nonListData])

/-- Method `ListField.prune_data(data)`: `not data and not self._store_default`. -/
def ListField.prune_data (f : ListField) (data : PyVal) : Bool :=
  pyFalsy data && !f.store_default

/-- The final state of the input list object after
`ListField.filter_input` returns or raises: the loop writes `data[i]` back
for each successfully validated element and stops at the first raise, so the
prefix before the raise is updated in place and the rest is untouched. -/
def ListField.filterPost (f : ListField) (error : Bool) : PyList → PyList
  | .nil => .nil
  | .cons x xs =>
    match f.d_value.filter_input x error with
    | .ok y => .cons y (ListField.filterPost f error xs)
    | .error _ => .cons x xs

/-- The `class DictField` of `_field.py`.  `keytype` is the `isinstance` test
against `self._keytype`. -/
structure DictField : Type where
  d_key : String
  keytype : PyVal → Bool
  d_value : TypedValue
  store_default : Bool

/-- The entry loop of `DictField.filter_input`: entries with an invalid key
type raise (`error=True`) or are logged and skipped (`error=False`); values
of kept entries run through the scalar validator and are written into the
fresh `data_out` dict. -/
def DictField.filterLoop (f : DictField) (error : Bool) (acc : PyDict)
    (ds : List Diag) : PyDict → Except PyErr (PyDict × List Diag)
  | .nil => .ok (acc, ds)
  | .cons k v rest =>
    if f.keytype k then
      match f.d_value.filter_input v error with
      | .error e => .error e
      | .ok v2 => DictField.filterLoop f error (acc.set k v2) ds rest
    else if error then .error (.typeError ("invalid key type"))
    else DictField.filterLoop f error acc (ds ++ [.invalidKeyType]) rest

/-- Method `DictField.filter_input(data, error)`: a non-dict raises `TypeError`
when `error`, else logs and is replaced by `{}`; a dict is rebuilt into a
fresh `data_out` through the per-entry loop. -/
def DictField.filter_input (f : DictField) (data : PyVal) (error : Bool) :
    Except PyErr (PyVal × List Diag) :=
  match data with
  | .dict es =>
    match DictField.filterLoop f error .nil [] es with
    | .error e => .error e
    | .ok (out, ds) => .ok (.dict out, ds)
  | _ =>
    if error then .error (.typeError ("dict value expected"))
    else .ok (.dict .nil, [.nonDictData])

/-- Method `DictField.prune_data(data)`: `not data and not self._store_default`. -/
def DictField.prune_data (f : DictField) (data : PyVal) : Bool :=
  pyFalsy data && !f.store_default

/-- The final state of the input dict object after `DictField.filter_input`
returns or raises.  The source only reads `data.items()` and writes into the
fresh `data_out`, so the input mapping is never mutated, raise or not. -/
def DictField.filterPost (_f : DictField) (_error : Bool) (es : PyDict) :
    PyDict := es

/-- The final state of the input dict object after
`CompoundDictField.filter_input` returns or raises.  As in `DictField`, the
source only reads `data.items()` and writes into the fresh `data_out`, so
the input mapping itself is never mutated. -/
def CompoundDictField.filterPost (_f : CompoundDictField) (_error : Bool)
    (es : PyDict) : PyDict := es

mutual
/-- A field descriptor, one constructor per class of `_field.py`, carrying
exactly the data its pruning behaviour can depend on: the value descriptor
or nested schema, and the `store_default` argument of `__init__`. -/
inductive FieldSpec : Type where
  | scalar (d_value : TypedValue) (store_default : Bool) : FieldSpec
  | compound (d_value : Schema) (store_default : Bool) : FieldSpec
  | listF (d_value : TypedValue) (store_default : Bool) : FieldSpec
  | dictF (keytype : PyVal → Bool) (d_value : TypedValue)
      (store_default : Bool) : FieldSpec
  | compoundList (d_value : Schema) (store_default : Bool) : FieldSpec
  | compoundDict (keytype : PyVal → Bool) (d_value : Schema)
      (store_default : Bool) : FieldSpec

/-- Modelled from the spec: a compound schema is a named ordered set of
field descriptors. -/
inductive Schema : Type where
  | mk (fields : FieldList) : Schema

/-- The ordered field list of a schema: document key paired with the field
descriptor. -/
inductive FieldList : Type where
  | nil : FieldList
  | cons (d_key : String) (f : FieldSpec) (rest : FieldList) : FieldList
end

mutual
/-- Method `prune_data(data)` of the six field classes, on the stored slice.
Returns the whole-slice prunability flag together with the slice's final
state (container variants element-prune in place), or `none` where the
source would raise on a slice of the wrong shape. -/
def FieldSpec.pruneData : FieldSpec → PyVal → Option (Bool × PyVal)
  | .scalar tv _, d => some (tv.prune_data d, d)
  | .compound sch _, d => Schema.pruneData sch d
  | .listF _ sd, d => some (pyFalsy d && !sd, d)
  | .dictF _ _ sd, d => some (pyFalsy d && !sd, d)
  | .compoundList sch sd, d =>
    match d with
    | .list xs =>
      match Schema.pruneElems sch xs with
      | Option.none => Option.none
      | some xs2 => some (xs.isEmpty && !sd, .list xs2)
    | _ => Option.none
  | .compoundDict _ sch sd, d =>
    match d with
    | .dict es =>
      match Schema.pruneVals sch es with
      | Option.none => Option.none
      | some es2 => some (es.isEmpty && !sd, .dict es2)
    | _ => Option.none
termination_by f _ => (sizeOf f, 0)

/-- Modelled from the spec: `CompoundValue.prune_data(data)` prunes the
slice's fields in place and then reports whether the whole (now possibly
emptied) mapping may be omitted. -/
def Schema.pruneData : Schema → PyVal → Option (Bool × PyVal)
  | sch, d =>
    match Schema.prune_fields_data sch d with
    | Option.none => Option.none
    | some d2 => some (pyFalsy d2, d2)
termination_by sch _ => (sizeOf sch, 3)

/-- Modelled from the spec: `CompoundValue.prune_fields_data(d_data)` walks
the schema's fields in order; for each field whose key is present it prunes
that field's slice in place and deletes the key when the field reports the
slice prunable. -/
def Schema.prune_fields_data : Schema → PyVal → Option PyVal
  | .mk fl, d =>
    match d with
    | .dict es =>
      match FieldList.pruneInto fl es with
      | Option.none => Option.none
      | some es2 => some (.dict es2)
    | _ => Option.none
termination_by sch _ => (sizeOf sch, 1)

/-- The element loop of `CompoundListField.prune_data`: each element's
fields are pruned in place; elements themselves are never removed. -/
def Schema.pruneElems : Schema → PyList → Option PyList
  | _, .nil => some .nil
  | sch, .cons x xs =>
    match Schema.prune_fields_data sch x with
    | Option.none => Option.none
    | some x2 =>
      match Schema.pruneElems sch xs with
      | Option.none => Option.none
      | some xs2 => some (.cons x2 xs2)
termination_by sch xs => (sizeOf sch, 2 + sizeOf xs)

/-- The entry loop of `CompoundDictField.prune_data`: each entry value's
fields are pruned in place; entries themselves are never removed. -/
def Schema.pruneVals : Schema → PyDict → Option PyDict
  | _, .nil => some .nil
  | sch, .cons k v rest =>
    match Schema.prune_fields_data sch v with
    | Option.none => Option.none
    | some v2 =>
      match Schema.pruneVals sch rest with
      | Option.none => Option.none
      | some rest2 => some (.cons k v2 rest2)
termination_by sch es => (sizeOf sch, 2 + sizeOf es)

/-- The per-field body of `prune_fields_data` over the schema's field list. -/
def FieldList.pruneInto : FieldList → PyDict → Option PyDict
  | .nil, es => some es
  | .cons k f rest, es =>
    match es.get (.str k) with
    | Option.none => FieldList.pruneInto rest es
    | some v =>
      match FieldSpec.pruneData f v with
      | Option.none => Option.none
      | some (b, v2) =>
        FieldList.pruneInto rest
          (if b then es.del (.str k) else es.set (.str k) v2)
termination_by fl _ => (sizeOf fl, 0)
end

/-- Key list of a schema's field list. -/
def FieldList.keys : FieldList → List String
  | .nil => []
  | .cons k _ rest => k :: FieldList.keys rest

mutual
/-- Well-formedness of a field descriptor: every nested schema has pairwise
distinct document keys (Python schemas address each slice by a distinct
attribute key). -/
def FieldSpec.wf : FieldSpec → Bool
  | .scalar _ _ => true
  | .compound sch _ => Schema.wf sch
  | .listF _ _ => true
  | .dictF _ _ _ => true
  | .compoundList sch _ => Schema.wf sch
  | .compoundDict _ sch _ => Schema.wf sch

/-- Well-formedness of a schema: its key list has no duplicates and all its
fields are well-formed. -/
def Schema.wf : Schema → Bool
  | .mk fl => decide (FieldList.keys fl).Nodup && FieldList.wf fl

/-- Well-formedness of a field list. -/
def FieldList.wf : FieldList → Bool
  | .nil => true
  | .cons _ f rest => FieldSpec.wf f && FieldList.wf rest
end

/-! ## Concrete instances used in counterexamples and witnesses -/

/-- A scalar validator with default `0` and `store_default=False` whose
filter accepts everything unchanged. -/
def tvInt0 : TypedValue := ⟨.int 0, false, fun v _ => .ok v⟩

/-- A scalar `Field` constructed with `store_default=True` over `tvInt0`. -/
def fieldSD : Field := ⟨"val", tvInt0, true⟩

/-! ## C1 -/

/-- C1 counterexample: the claim reads `Field.prune_data(data)` as true iff
the *field's* `store_default` flag is false and `data` equals the default.
For the field `fieldSD` (constructed with `store_default=True`) and
`data = 0` (the default), `prune_data` returns `True` — the source delegates
to the value descriptor and never consults the field's own `_store_default`
— while the claim requires `False`. -/
theorem C1_field_prune_claim_false :
    ¬ (Field.prune_data fieldSD (.int 0) = true ↔
        (fieldSD.store_default = false
          ∧ PyVal.int 0 = fieldSD.get_default_data)) := by
  decide

/-- C1 (amended): for every scalar `Field` and datum, `Field.prune_data data`
is true iff the *value descriptor's* `store_default` flag is false and
`data` equals the default (`get_default_data()`); the `store_default`
argument stored on the `Field` itself plays no part. -/
theorem C1_field_prune_data_iff (f : Field) (data : PyVal) :
    Field.prune_data f data = true ↔
      (f.d_value.store_default = false ∧ data = f.d_value.default) := by
  simp [Field.prune_data, TypedValue.prune_data, Bool.and_eq_true,
    Bool.not_eq_true', beq_iff_eq]

/-! ## C4 -/

/-- C4: whole-container pruning rule.  For `ListField` and `DictField` the
prune flag is exactly the conjunction of container emptiness and a false
`store_default` (and the slice is untouched); for `CompoundListField` and
`CompoundDictField`, whenever pruning completes, the returned flag is again
exactly that conjunction, independent of element content. -/
theorem C4_container_prune_rule (tv : TypedValue) (kt : PyVal → Bool)
    (sch : Schema) (sd : Bool) (xs : PyList) (es : PyDict) :
    (FieldSpec.pruneData (.listF tv sd) (.list xs)
        = some ((xs.isEmpty && !sd), .list xs))
    ∧ (FieldSpec.pruneData (.dictF kt tv sd) (.dict es)
        = some ((es.isEmpty && !sd), .dict es))
    ∧ (∀ b d2, FieldSpec.pruneData (.compoundList sch sd) (.list xs)
        = some (b, d2) → b = (xs.isEmpty && !sd))
    ∧ (∀ b d2, FieldSpec.pruneData (.compoundDict kt sch sd) (.dict es)
        = some (b, d2) → b = (es.isEmpty && !sd)) := by
  refine ⟨by simp [FieldSpec.pruneData, pyFalsy],
    by simp [FieldSpec.pruneData, pyFalsy], ?_, ?_⟩
  · intro b d2 h
    simp only [FieldSpec.pruneData] at h
    rcases hE : Schema.pruneElems sch xs with _ | xs2 <;> rw [hE] at h
    · exact absurd h (by simp)
    · simp only [Option.some.injEq, Prod.mk.injEq] at h
      exact h.1.symm
  · intro b d2 h
    simp only [FieldSpec.pruneData] at h
    rcases hE : Schema.pruneVals sch es with _ | es2 <;> rw [hE] at h
    · exact absurd h (by simp)
    · simp only [Option.some.injEq, Prod.mk.injEq] at h
      exact h.1.symm

/-- A one-field schema `{a : scalar default 0}` used in witnesses. -/
def schemaA : Schema := .mk (.cons ("a") (.scalar tvInt0 false) .nil)

/-- The one-element compound-list slice `[{"a": 0}]` used in witnesses. -/
def sliceA : PyVal := .list (.cons (.dict (.cons (.str ("a")) (.int 0) .nil)) .nil)

/-- C4 witness: instantiating the rule at the non-empty slice `[{"a": 0}]`
of a `CompoundListField` over `schemaA` with `store_default=False`: pruning
succeeds (emptying the element in place) yet reports the whole list
non-prunable. -/
theorem C4_container_prune_rule_witness :
    (false : Bool)
      = ((PyList.cons (.dict (.cons (.str ("a")) (.int 0) .nil)) .nil).isEmpty
          && !false) :=
  (C4_container_prune_rule tvInt0 (fun _ => true) schemaA false
      (.cons (.dict (.cons (.str ("a")) (.int 0) .nil)) .nil) .nil).2.2.1
    false (.list (.cons (.dict .nil) .nil))
    (by simp [FieldSpec.pruneData, Schema.pruneElems, Schema.prune_fields_data,
      FieldList.pruneInto, PyDict.get, PyDict.del, TypedValue.prune_data,
      PyList.isEmpty, schemaA, tvInt0])

/-! ## C2 -/

/-- C2: `CompoundField` assignment raises exactly when the value is neither
a `CompoundValue` nor a bound compound view, or has no live backing document
(`d_data` absent or `None`), or its schema field set differs from the
field's nested schema's field set; otherwise it succeeds and stores a deep
copy of the source slice under the field's key. -/
theorem C2_compound_set_spec (f : CompoundField) (objData : PyDict)
    (value : Obj) :
    ((∃ e, CompoundField.set f objData value = .error e) ↔
      (value.valueSchema = Option.none
        ∨ value.dDataAttr = Option.none
        ∨ value.dDataAttr = some PyVal.none
        ∨ (∃ c, value.valueSchema = some c
            ∧ c.get_fields ≠ f.d_value.get_fields)))
    ∧ (∀ c d, value.valueSchema = some c → value.dDataAttr = some d →
        d ≠ PyVal.none → c.get_fields = f.d_value.get_fields →
        CompoundField.set f objData value
          = .ok (objData.set (.str f.d_key) (deepcopy d))) := by
  cases value with
  | bound dv d =>
    constructor
    · by_cases hd : d = PyVal.none
      · simp [CompoundField.set, Obj.valueSchema, Obj.dDataAttr, hd]
      · by_cases hf : dv.get_fields = f.d_value.get_fields
        · simp [CompoundField.set, Obj.valueSchema, Obj.dDataAttr, hd, hf]
        · simp [CompoundField.set, Obj.valueSchema, Obj.dDataAttr, hd,
            hf, Ne.symm hf]
    · intro c d2 hc hd2 hne hfe
      simp only [Obj.valueSchema, Option.some.injEq] at hc
      simp only [Obj.dDataAttr, Option.some.injEq] at hd2
      subst hc; subst hd2
      simp [CompoundField.set, Obj.valueSchema, Obj.dDataAttr, hne, hfe.symm]
  | compound c =>
    constructor
    · cases hcd : c.d_data with
      | none =>
        simp [CompoundField.set, Obj.valueSchema, Obj.dDataAttr, hcd]
      | some d =>
        by_cases hd : d = PyVal.none
        · simp [CompoundField.set, Obj.valueSchema, Obj.dDataAttr, hcd, hd]
        · by_cases hf : c.get_fields = f.d_value.get_fields
          · simp [CompoundField.set, Obj.valueSchema, Obj.dDataAttr, hcd,
              hd, hf]
          · simp [CompoundField.set, Obj.valueSchema, Obj.dDataAttr, hcd,
              hd, hf, Ne.symm hf]
    · intro c2 d hc2 hd hne hfe
      simp only [Obj.valueSchema, Option.some.injEq] at hc2
      simp only [Obj.dDataAttr] at hd
      subst hc2
      simp [CompoundField.set, Obj.valueSchema, Obj.dDataAttr, hd, hne,
        hfe.symm]
  | pylist xs => simp [CompoundField.set, Obj.valueSchema, Obj.dDataAttr]
  | pydict es => simp [CompoundField.set, Obj.valueSchema, Obj.dDataAttr]
  | other => simp [CompoundField.set, Obj.valueSchema, Obj.dDataAttr]

/-- A schema object with identity 1 and the single field `a`. -/
def cvA : CompoundValue := ⟨1, ["a"], Option.none⟩

/-- A structurally identical but distinct schema object (different
identity, same field set). -/
def cvB : CompoundValue := ⟨2, ["a"], Option.none⟩

/-- C2 witness: assigning the bound view `⟨cvB, {"a": 1}⟩` (live document,
matching field set) to a `CompoundField` over `cvA` succeeds and deep-copies
the slice under key `sub`. -/
theorem C2_compound_set_spec_witness :
    CompoundField.set ⟨"sub", cvA, false⟩ .nil
        (.bound cvB (.dict (.cons (.str ("a")) (.int 1) .nil)))
      = .ok (PyDict.set .nil (.str ("sub"))
          (deepcopy (.dict (.cons (.str ("a")) (.int 1) .nil)))) :=
  (C2_compound_set_spec ⟨"sub", cvA, false⟩ .nil
      (.bound cvB (.dict (.cons (.str ("a")) (.int 1) .nil)))).2
    cvB (.dict (.cons (.str ("a")) (.int 1) .nil)) rfl rfl (by decide) rfl

/-! ## C3 -/

/-- C3: `CompoundListField` whole-field assignment succeeds exactly for a
list all of whose members are bound compound views whose schema descriptor
is the *identical object* (`is`, rendered as `uid` equality) as this field's
nested schema; on success the slice becomes the members' backing slices
taken by reference, with no re-validation. -/
theorem C3_compound_list_set_spec (f : CompoundListField) (objData : PyDict)
    (value : Obj) :
    ((∃ out, CompoundListField.set f objData value = .ok out) ↔
      (∃ xs, value = .pylist xs
        ∧ ∀ x ∈ xs, x.isBoundCompoundValue = true
            ∧ Obj.boundSchemaIs f.d_value x = true))
    ∧ (∀ xs, value = .pylist xs →
        (∀ x ∈ xs, x.isBoundCompoundValue = true
            ∧ Obj.boundSchemaIs f.d_value x = true) →
        CompoundListField.set f objData value
          = .ok (objData.set (.str f.d_key)
              (.list (PyList.ofList (xs.map Obj.boundData))))) := by
  cases value with
  | pylist xs =>
    have hkey : ((!(xs.all Obj.isBoundCompoundValue)
          || !(xs.all (Obj.boundSchemaIs f.d_value))) = false) ↔
        ∀ x ∈ xs, x.isBoundCompoundValue = true
          ∧ Obj.boundSchemaIs f.d_value x = true := by
      constructor
      · intro h x hx
        have h1 : xs.all Obj.isBoundCompoundValue = true := by
          cases hA : xs.all Obj.isBoundCompoundValue
          · rw [hA] at h; simp at h
          · rfl
        have h2 : xs.all (Obj.boundSchemaIs f.d_value) = true := by
          cases hA : xs.all (Obj.boundSchemaIs f.d_value)
          · rw [hA] at h; simp at h
          · rfl
        exact ⟨List.all_eq_true.mp h1 x hx, List.all_eq_true.mp h2 x hx⟩
      · intro h
        have h1 : xs.all Obj.isBoundCompoundValue = true :=
          List.all_eq_true.mpr fun x hx => (h x hx).1
        have h2 : xs.all (Obj.boundSchemaIs f.d_value) = true :=
          List.all_eq_true.mpr fun x hx => (h x hx).2
        rw [h1, h2]; rfl
    by_cases hall : ∀ x ∈ xs, x.isBoundCompoundValue = true
        ∧ Obj.boundSchemaIs f.d_value x = true
    · have hc := hkey.mpr hall
      constructor
      · refine ⟨fun _ => ⟨xs, rfl, hall⟩,
          fun _ => ⟨objData.set (.str f.d_key)
            (.list (PyList.ofList (xs.map Obj.boundData))), ?_⟩⟩
        simp [CompoundListField.set, hc]
      · intro xs2 hxs2 _
        cases hxs2
        simp [CompoundListField.set, hc]
    · have hc : (!(xs.all Obj.isBoundCompoundValue)
          || !(xs.all (Obj.boundSchemaIs f.d_value))) = true := by
        cases hC : (!(xs.all Obj.isBoundCompoundValue)
            || !(xs.all (Obj.boundSchemaIs f.d_value)))
        · exact absurd (hkey.mp hC) hall
        · rfl
      constructor
      · constructor
        · intro ⟨out, hout⟩
          simp [CompoundListField.set, hc] at hout
        · intro ⟨xs2, hxs2, hall2⟩
          cases hxs2
          exact absurd hall2 hall
      · intro xs2 hxs2 hall2
        cases hxs2
        exact absurd hall2 hall
  | bound dv d =>
    refine ⟨⟨fun ⟨out, h⟩ => by simp [CompoundListField.set] at h,
      fun ⟨xs, hxs, _⟩ => by cases hxs⟩, fun xs hxs _ => by cases hxs⟩
  | compound c =>
    refine ⟨⟨fun ⟨out, h⟩ => by simp [CompoundListField.set] at h,
      fun ⟨xs, hxs, _⟩ => by cases hxs⟩, fun xs hxs _ => by cases hxs⟩
  | pydict es =>
    refine ⟨⟨fun ⟨out, h⟩ => by simp [CompoundListField.set] at h,
      fun ⟨xs, hxs, _⟩ => by cases hxs⟩, fun xs hxs _ => by cases hxs⟩
  | other =>
    refine ⟨⟨fun ⟨out, h⟩ => by simp [CompoundListField.set] at h,
      fun ⟨xs, hxs, _⟩ => by cases hxs⟩, fun xs hxs _ => by cases hxs⟩

/-- C3 witness: the field's own bound child `⟨cvA, {}⟩` assigns fine, its
slice stored by reference. -/
theorem C3_compound_list_set_spec_witness :
    CompoundListField.set ⟨"kids", cvA, false⟩ .nil
        (.pylist [.bound cvA (.dict .nil)])
      = .ok (PyDict.set .nil (.str ("kids"))
          (.list (PyList.ofList
            ([Obj.bound cvA (.dict .nil)].map Obj.boundData)))) :=
  (C3_compound_list_set_spec ⟨"kids", cvA, false⟩ .nil
      (.pylist [.bound cvA (.dict .nil)])).2
    [.bound cvA (.dict .nil)] rfl (by decide)

/-! ## C9 -/

/-- C9: assigning the empty list to a `CompoundListField`, or the empty dict
to a `CompoundDictField`, always succeeds (the membership and key-type
checks are vacuous) and replaces the slice with an empty container. -/
theorem C9_empty_container_assign (fl : CompoundListField)
    (fd : CompoundDictField) (objData : PyDict) :
    CompoundListField.set fl objData (.pylist [])
        = .ok (objData.set (.str fl.d_key) (.list .nil))
    ∧ CompoundDictField.set fd objData (.pydict [])
        = .ok (objData.set (.str fd.d_key) (.dict .nil)) :=
  ⟨rfl, rfl⟩

/-! ## C7 -/

/-- C7: `CompoundDictField` whole-field assignment succeeds exactly for a
dict all of whose keys pass the declared key-type test and all of whose
values are bound compound views whose schema descriptor is the identical
object as this field's nested schema; on success the slice becomes
`{key: child.d_data}` with each backing slice taken by reference. -/
theorem C7_compound_dict_set_spec (f : CompoundDictField) (objData : PyDict)
    (value : Obj) :
    ((∃ out, CompoundDictField.set f objData value = .ok out) ↔
      (∃ entries, value = .pydict entries
        ∧ ∀ p ∈ entries, f.d_keytype p.1 = true
            ∧ p.2.isBoundCompoundValue = true
            ∧ Obj.boundSchemaIs f.d_value p.2 = true))
    ∧ (∀ entries, value = .pydict entries →
        (∀ p ∈ entries, f.d_keytype p.1 = true
            ∧ p.2.isBoundCompoundValue = true
            ∧ Obj.boundSchemaIs f.d_value p.2 = true) →
        CompoundDictField.set f objData value
          = .ok (objData.set (.str f.d_key)
              (.dict (PyDict.ofList
                (entries.map (fun p => (p.1, p.2.boundData))))))) := by
  cases value with
  | pydict entries =>
    have hkey : ((!(entries.all (fun p => f.d_keytype p.1))
          || !(entries.all (fun p => p.2.isBoundCompoundValue))
          || !(entries.all (fun p => Obj.boundSchemaIs f.d_value p.2)))
            = false) ↔
        ∀ p ∈ entries, f.d_keytype p.1 = true
          ∧ p.2.isBoundCompoundValue = true
          ∧ Obj.boundSchemaIs f.d_value p.2 = true := by
      constructor
      · intro h p hp
        have h1 : entries.all (fun p => f.d_keytype p.1) = true := by
          cases hA : entries.all (fun p => f.d_keytype p.1)
          · rw [hA] at h; simp at h
          · rfl
        have h2 : entries.all (fun p => p.2.isBoundCompoundValue) = true := by
          cases hA : entries.all (fun p => p.2.isBoundCompoundValue)
          · rw [hA] at h; simp at h
          · rfl
        have h3 : entries.all (fun p => Obj.boundSchemaIs f.d_value p.2)
            = true := by
          cases hA : entries.all (fun p => Obj.boundSchemaIs f.d_value p.2)
          · rw [hA] at h; simp at h
          · rfl
        exact ⟨List.all_eq_true.mp h1 p hp, List.all_eq_true.mp h2 p hp,
          List.all_eq_true.mp h3 p hp⟩
      · intro h
        have h1 : entries.all (fun p => f.d_keytype p.1) = true :=
          List.all_eq_true.mpr fun p hp => (h p hp).1
        have h2 : entries.all (fun p => p.2.isBoundCompoundValue) = true :=
          List.all_eq_true.mpr fun p hp => (h p hp).2.1
        have h3 : entries.all (fun p => Obj.boundSchemaIs f.d_value p.2)
            = true :=
          List.all_eq_true.mpr fun p hp => (h p hp).2.2
        rw [h1, h2, h3]; rfl
    by_cases hall : ∀ p ∈ entries, f.d_keytype p.1 = true
        ∧ p.2.isBoundCompoundValue = true
        ∧ Obj.boundSchemaIs f.d_value p.2 = true
    · have hc := hkey.mpr hall
      constructor
      · refine ⟨fun _ => ⟨entries, rfl, hall⟩,
          fun _ => ⟨objData.set (.str f.d_key)
            (.dict (PyDict.ofList
              (entries.map (fun p => (p.1, p.2.boundData))))), ?_⟩⟩
        simp [CompoundDictField.set, hc]
      · intro entries2 he _
        cases he
        simp [CompoundDictField.set, hc]
    · have hc : (!(entries.all (fun p => f.d_keytype p.1))
          || !(entries.all (fun p => p.2.isBoundCompoundValue))
          || !(entries.all (fun p => Obj.boundSchemaIs f.d_value p.2)))
            = true := by
        cases hC : (!(entries.all (fun p => f.d_keytype p.1))
            || !(entries.all (fun p => p.2.isBoundCompoundValue))
            || !(entries.all (fun p => Obj.boundSchemaIs f.d_value p.2)))
        · exact absurd (hkey.mp hC) hall
        · rfl
      constructor
      · constructor
        · intro ⟨out, hout⟩
          simp [CompoundDictField.set, hc] at hout
        · intro ⟨entries2, he, hall2⟩
          cases he
          exact absurd hall2 hall
      · intro entries2 he hall2
        cases he
        exact absurd hall2 hall
  | bound dv d =>
    refine ⟨⟨fun ⟨out, h⟩ => by simp [CompoundDictField.set] at h,
      fun ⟨es, he, _⟩ => by cases he⟩, fun es he _ => by cases he⟩
  | compound c =>
    refine ⟨⟨fun ⟨out, h⟩ => by simp [CompoundDictField.set] at h,
      fun ⟨es, he, _⟩ => by cases he⟩, fun es he _ => by cases he⟩
  | pylist xs =>
    refine ⟨⟨fun ⟨out, h⟩ => by simp [CompoundDictField.set] at h,
      fun ⟨es, he, _⟩ => by cases he⟩, fun es he _ => by cases he⟩
  | other =>
    refine ⟨⟨fun ⟨out, h⟩ => by simp [CompoundDictField.set] at h,
      fun ⟨es, he, _⟩ => by cases he⟩, fun es he _ => by cases he⟩

/-- C7 witness: a dict with a string key (passing the key-type test) and the
field's own bound child as value assigns fine. -/
theorem C7_compound_dict_set_spec_witness :
    CompoundDictField.set
        ⟨"m", fun v => match v with | .str _ => true | _ => false, cvA, false⟩
        .nil (.pydict [(.str ("k"), .bound cvA (.dict .nil))])
      = .ok (PyDict.set .nil (.str ("m"))
          (.dict (PyDict.ofList
            ([((PyVal.str ("k") : PyVal), Obj.bound cvA (.dict .nil))].map
              (fun p => (p.1, p.2.boundData)))))) :=
  (C7_compound_dict_set_spec
      ⟨"m", fun v => match v with | .str _ => true | _ => false, cvA, false⟩
      .nil (.pydict [(.str ("k"), .bound cvA (.dict .nil))])).2
    [(.str ("k"), .bound cvA (.dict .nil))] rfl
    (by intro p hp; simp only [List.mem_singleton] at hp; subst hp
        exact ⟨rfl, rfl, by decide⟩)

/-! ## C6 -/

/-- The element loop of `ListField.filter_input` maps the scalar validator
over the list when every element validates. -/
theorem ListField.filterElems_ofList (f : ListField) (error : Bool)
    (xs : List PyVal) (g : PyVal → PyVal)
    (h : ∀ x ∈ xs, f.d_value.filter_input x error = .ok (g x)) :
    ListField.filterElems f error (PyList.ofList xs)
      = .ok (PyList.ofList (xs.map g)) := by
  induction xs with
  | nil => rfl
  | cons x xs ih =>
    have hx := h x (List.mem_cons_self x xs)
    have ih2 := ih fun y hy => h y (List.mem_cons_of_mem x hy)
    simp [PyList.ofList, ListField.filterElems, hx, ih2]

/-- C6: `ListField.filter_input` raises `TypeError` on non-list input when
`error=True` and logs a diagnostic and yields `[]` when `error=False`; on a
list whose elements all validate, every element is passed through the scalar
validator in order and replaced in place, so the result is exactly the
elementwise image of the input (same length, same order). -/
theorem C6_list_filter_input_spec (f : ListField) :
    (∀ data : PyVal, (∀ xs, data ≠ PyVal.list xs) →
        f.filter_input data true = .error (.typeError ("list value expected"))
        ∧ f.filter_input data false = .ok (.list .nil, [.nonListData]))
    ∧ (∀ (error : Bool) (xs : List PyVal) (g : PyVal → PyVal),
        (∀ x ∈ xs, f.d_value.filter_input x error = .ok (g x)) →
        f.filter_input (.list (PyList.ofList xs)) error
          = .ok (.list (PyList.ofList (xs.map g)), [])) := by
  constructor
  · intro data hd
    cases data with
    | list xs => exact absurd rfl (hd xs)
    | none => exact ⟨rfl, rfl⟩
    | bool b => exact ⟨rfl, rfl⟩
    | int n => exact ⟨rfl, rfl⟩
    | str s => exact ⟨rfl, rfl⟩
    | dict es => exact ⟨rfl, rfl⟩
  · intro error xs g h
    simp [ListField.filter_input, ListField.filterElems_ofList f error xs g h]

/-- A `ListField` over the permissive scalar validator `tvInt0`. -/
def listFieldW : ListField := ⟨"xs", tvInt0, false⟩

/-- C6 witness: a non-list input raises with `error=True`, and the list
`[1]` filters to itself under the identity validator. -/
theorem C6_list_filter_input_spec_witness :
    ListField.filter_input listFieldW (.int 5) true
        = .error (.typeError ("list value expected"))
    ∧ ListField.filter_input listFieldW (.list (PyList.ofList [.int 1])) true
        = .ok (.list (PyList.ofList ([PyVal.int 1].map id)), []) :=
  ⟨((C6_list_filter_input_spec listFieldW).1 (.int 5)
      fun xs h => by cases h).1,
    (C6_list_filter_input_spec listFieldW).2 true [.int 1] id
      (by intro x hx
          simp only [List.mem_singleton] at hx
          subst hx
          rfl)⟩

/-! ## C5 -/

/-- Writing `data_out[k] = v` appends when `k` is fresh. -/
theorem PyDict.set_fresh (accL : List (PyVal × PyVal)) (k v : PyVal)
    (hk : ∀ p ∈ accL, p.1 ≠ k) :
    PyDict.set (PyDict.ofList accL) k v = PyDict.ofList (accL ++ [(k, v)]) := by
  induction accL with
  | nil => rfl
  | cons p rest ih =>
    obtain ⟨k0, v0⟩ := p
    have hne : k0 ≠ k := hk (k0, v0) (List.mem_cons_self _ _)
    simp [PyDict.ofList, PyDict.set, hne,
      ih fun q hq => hk q (List.mem_cons_of_mem _ hq)]

/-- The entry loop of `DictField.filter_input` with `error=False`: entries
with valid keys are kept in order with validated values; entries with
invalid keys are skipped, each recording one diagnostic. -/
theorem DictField.filterLoop_ok_spec (f : DictField) (g : PyVal → PyVal) :
    ∀ (es accL : List (PyVal × PyVal)) (ds : List Diag),
    ((accL ++ es).map Prod.fst).Nodup →
    (∀ p ∈ es, f.keytype p.1 = true →
        f.d_value.filter_input p.2 false = .ok (g p.2)) →
    DictField.filterLoop f false (PyDict.ofList accL) ds (PyDict.ofList es)
      = .ok (PyDict.ofList (accL ++ es.filterMap
            (fun p => if f.keytype p.1 then some (p.1, g p.2)
              else Option.none)),
          ds ++ (es.filter (fun p => !f.keytype p.1)).map
            (fun _ => Diag.invalidKeyType)) := by
  intro es
  induction es with
  | nil => intro accL ds _ _; simp [PyDict.ofList, DictField.filterLoop]
  | cons p rest ih =>
    intro accL ds hnd hg
    obtain ⟨k, v⟩ := p
    by_cases hkt : f.keytype k = true
    · have hv := hg (k, v) (List.mem_cons_self _ _) hkt
      have hfresh : ∀ q ∈ accL, q.1 ≠ k := by
        intro q hq hqk
        have : k ∈ accL.map Prod.fst := hqk ▸ List.mem_map_of_mem _ hq
        have hdisj := (List.nodup_append.mp (by
          simpa using hnd)).2.2
        exact hdisj this (by simp)
      have hstep := PyDict.set_fresh accL k (g v) hfresh
      have hnd2 : (((accL ++ [(k, g v)]) ++ rest).map Prod.fst).Nodup := by
        have : ((accL ++ [(k, g v)]) ++ rest).map Prod.fst
            = (accL ++ (k, v) :: rest).map Prod.fst := by
          simp [List.append_assoc]
        rw [this]; exact hnd
      have ih2 := ih (accL ++ [(k, g v)]) ds hnd2
        fun q hq hqt => hg q (List.mem_cons_of_mem _ hq) hqt
      simp only [PyDict.ofList, DictField.filterLoop, hkt, if_true, hv,
        hstep]
      rw [ih2]
      simp [List.filterMap_cons, List.filter_cons, hkt, List.append_assoc]
    · have hkt2 : f.keytype k = false := by
        cases hK : f.keytype k
        · rfl
        · exact absurd hK hkt
      have hnd2 : ((accL ++ rest).map Prod.fst).Nodup := by
        refine List.Nodup.sublist (List.Sublist.map _ ?_) hnd
        exact List.Sublist.append_left (List.sublist_cons_self _ _) _
      have ih2 := ih accL (ds ++ [.invalidKeyType]) hnd2
        fun q hq hqt => hg q (List.mem_cons_of_mem _ hq) hqt
      simp only [PyDict.ofList, DictField.filterLoop, hkt2,
        Bool.false_eq_true, if_false]
      rw [ih2]
      simp [List.filterMap_cons, List.filter_cons, hkt2, List.append_assoc]

/-- The entry loop of `DictField.filter_input` with `error=True` raises
`TypeError` at the first invalid-typed key, provided the earlier entries all
have valid keys and validating values. -/
theorem DictField.filterLoop_raise_spec (f : DictField) :
    ∀ (es1 : List (PyVal × PyVal)) (k v : PyVal)
      (es2 : List (PyVal × PyVal)) (acc : PyDict) (ds : List Diag),
    (∀ p ∈ es1, f.keytype p.1 = true
        ∧ ∃ r, f.d_value.filter_input p.2 true = .ok r) →
    f.keytype k = false →
    DictField.filterLoop f true acc ds (PyDict.ofList (es1 ++ (k, v) :: es2))
      = .error (.typeError ("invalid key type")) := by
  intro es1
  induction es1 with
  | nil =>
    intro k v es2 acc ds _ hkt
    simp [PyDict.ofList, DictField.filterLoop, hkt]
  | cons p rest ih =>
    intro k v es2 acc ds hgood hkt
    obtain ⟨k0, v0⟩ := p
    obtain ⟨hk0, r, hr⟩ := hgood (k0, v0) (List.mem_cons_self _ _)
    simp only [List.cons_append, PyDict.ofList, DictField.filterLoop, hk0,
      if_true, hr]
    exact ih k v es2 (acc.set k0 r) ds
      (fun q hq => hgood q (List.mem_cons_of_mem _ hq)) hkt

/-- C5: `DictField.filter_input` applies a per-entry key policy.  With
`error=False` every invalid-typed key is dropped with one recorded
diagnostic while all validly-keyed entries are kept, in order, with their
values run through the scalar validator; with `error=True` it raises
`TypeError` at the first invalid-typed key (given that the earlier, valid
entries validate), returning no output at all, so nothing is written to the
target document. -/
theorem C5_dict_filter_entry_policy (f : DictField) :
    (∀ (es : List (PyVal × PyVal)) (g : PyVal → PyVal),
        (es.map Prod.fst).Nodup →
        (∀ p ∈ es, f.keytype p.1 = true →
            f.d_value.filter_input p.2 false = .ok (g p.2)) →
        f.filter_input (.dict (PyDict.ofList es)) false
          = .ok (.dict (PyDict.ofList (es.filterMap
                (fun p => if f.keytype p.1 then some (p.1, g p.2)
                  else Option.none))),
              (es.filter (fun p => !f.keytype p.1)).map
                (fun _ => Diag.invalidKeyType)))
    ∧ (∀ (es1 : List (PyVal × PyVal)) (k v : PyVal)
          (es2 : List (PyVal × PyVal)),
        (∀ p ∈ es1, f.keytype p.1 = true
            ∧ ∃ r, f.d_value.filter_input p.2 true = .ok r) →
        f.keytype k = false →
        f.filter_input (.dict (PyDict.ofList (es1 ++ (k, v) :: es2))) true
          = .error (.typeError ("invalid key type"))) := by
  constructor
  · intro es g hnd hg
    have h := DictField.filterLoop_ok_spec f g es [] [] (by simpa using hnd)
      hg
    simp only [PyDict.ofList, List.nil_append] at h
    simp only [DictField.filter_input]
    rw [h]
  · intro es1 k v es2 hgood hkt
    have h := DictField.filterLoop_raise_spec f es1 k v es2 .nil [] hgood hkt
    simp only [DictField.filter_input]
    rw [h]

/-- A `DictField` keyed by strings over the permissive scalar validator. -/
def dictFieldW : DictField :=
  ⟨"m", fun v => match v with | .str _ => true | _ => false, tvInt0, false⟩

/-- C5 witness: the mapping `{"a": 5, 3: 7}` (one valid entry, one
invalid-typed key).  With `error=False` only the valid entry survives, plus
one diagnostic; with `error=True` the call raises `TypeError`. -/
theorem C5_dict_filter_entry_policy_witness :
    DictField.filter_input dictFieldW
        (.dict (PyDict.ofList [(.str ("a"), .int 5), (.int 3, .int 7)])) false
      = .ok (.dict (PyDict.ofList
            ([((PyVal.str ("a") : PyVal), PyVal.int 5),
              ((PyVal.int 3 : PyVal), PyVal.int 7)].filterMap
              (fun p => if dictFieldW.keytype p.1 then some (p.1, id p.2)
                else Option.none))),
          ([((PyVal.str ("a") : PyVal), PyVal.int 5),
            ((PyVal.int 3 : PyVal), PyVal.int 7)].filter
            (fun p => !dictFieldW.keytype p.1)).map
            (fun _ => Diag.invalidKeyType))
    ∧ DictField.filter_input dictFieldW
        (.dict (PyDict.ofList ([((PyVal.str ("a") : PyVal), PyVal.int 5)]
            ++ (.int 3, .int 7) :: []))) true
      = .error (.typeError ("invalid key type")) :=
  ⟨(C5_dict_filter_entry_policy dictFieldW).1
      [(.str ("a"), .int 5), (.int 3, .int 7)] id (by decide)
      (by intro p hp _
          rcases List.mem_cons.mp hp with h | h
          · subst h; rfl
          · simp only [List.mem_singleton] at h; subst h; rfl),
    (C5_dict_filter_entry_policy dictFieldW).2
      [(.str ("a"), .int 5)] (.int 3) (.int 7) []
      (by intro p hp
          simp only [List.mem_singleton] at hp
          subst hp
          exact ⟨rfl, .int 5, rfl⟩)
      rfl⟩

/-! ## C10 -/

/-- A scalar validator that rewrites `0` to `7` and raises on anything
else, exhibiting partial in-place mutation of a list input. -/
def tvZeroToSeven : TypedValue :=
  ⟨.int 0, false, fun v _ =>
    match v with
    | .int 0 => .ok (.int 7)
    | _ => .error (.typeError ("bad value"))⟩

/-- A `ListField` over `tvZeroToSeven`. -/
def listFieldMut : ListField := ⟨"xs", tvZeroToSeven, false⟩

/-- C10: the dict variants build a fresh `data_out` and never write to the
input mapping, so the input dict is unchanged even when a raise happens
partway; the list variant instead writes validated elements back into the
input, so a raise partway leaves the input list partially mutated (here
`[0, 1]` becomes `[7, 1]` although the call raised). -/
theorem C10_dict_filter_no_mutation :
    (∀ (f : DictField) (error : Bool) (es : PyDict),
        DictField.filterPost f error es = es)
    ∧ (∀ (f : CompoundDictField) (error : Bool) (es : PyDict),
        CompoundDictField.filterPost f error es = es)
    ∧ (ListField.filter_input listFieldMut
          (.list (.cons (.int 0) (.cons (.int 1) .nil))) true
        = .error (.typeError ("bad value"))
      ∧ ListField.filterPost listFieldMut true
          (.cons (.int 0) (.cons (.int 1) .nil))
        = .cons (.int 7) (.cons (.int 1) .nil)
      ∧ PyList.cons (.int 7) (.cons (.int 1) .nil)
          ≠ .cons (.int 0) (.cons (.int 1) .nil)) :=
  ⟨fun _ _ _ => rfl, fun _ _ _ => rfl, rfl, rfl, by decide⟩

/-! ## C8: dictionary-state lemmas -/

/-- After `d[k] = v`, looking up `k` yields `v`. -/
theorem PyDict.get_set_self : ∀ (d : PyDict) (k v : PyVal),
    (d.set k v).get k = some v
  | .nil, k, v => by simp [PyDict.set, PyDict.get]
  | .cons k0 v0 rest, k, v => by
    by_cases h : k0 = k
    · simp [PyDict.set, PyDict.get, h]
    · simp [PyDict.set, PyDict.get, h, PyDict.get_set_self rest k v]

/-- Re-storing the value already present leaves the dict unchanged. -/
theorem PyDict.set_self : ∀ (d : PyDict) (k v : PyVal),
    d.get k = some v → d.set k v = d
  | .nil, k, v, h => by simp [PyDict.get] at h
  | .cons k0 v0 rest, k, v, h => by
    by_cases hk : k0 = k
    · subst hk
      have hv : v0 = v := by simpa [PyDict.get] using h
      subst hv
      simp [PyDict.set]
    · simp only [PyDict.get, if_neg hk] at h
      simp [PyDict.set, hk, PyDict.set_self rest k v h]

/-- Setting `d[k] = v` does not change other keys. -/
theorem PyDict.get_set_ne : ∀ (d : PyDict) (k v k2 : PyVal), k2 ≠ k →
    (d.set k v).get k2 = d.get k2
  | .nil, k, v, k2, h => by
    have hne : ¬ (k = k2) := fun he => h he.symm
    simp [PyDict.set, PyDict.get, hne]
  | .cons k0 v0 rest, k, v, k2, h => by
    by_cases hk : k0 = k
    · subst hk
      have hne : ¬ (k0 = k2) := fun he => h he.symm
      simp [PyDict.set, PyDict.get, hne]
    · by_cases hk2 : k0 = k2
      · simp [PyDict.set, PyDict.get, hk, hk2, h]
      · simp [PyDict.set, PyDict.get, hk, hk2,
          PyDict.get_set_ne rest k v k2 h]

/-- After `del d[k]`, `k` is absent. -/
theorem PyDict.get_del_self : ∀ (d : PyDict) (k : PyVal),
    (d.del k).get k = Option.none
  | .nil, k => rfl
  | .cons k0 v0 rest, k => by
    by_cases hk : k0 = k
    · simp [PyDict.del, hk, PyDict.get_del_self rest k]
    · simp [PyDict.del, PyDict.get, hk, PyDict.get_del_self rest k]

/-- Deleting `del d[k]` does not change other keys. -/
theorem PyDict.get_del_ne : ∀ (d : PyDict) (k k2 : PyVal), k2 ≠ k →
    (d.del k).get k2 = d.get k2
  | .nil, k, k2, h => rfl
  | .cons k0 v0 rest, k, k2, h => by
    by_cases hk : k0 = k
    · subst hk
      have hne : ¬ (k0 = k2) := fun he => h he.symm
      simp [PyDict.del, PyDict.get, hne, PyDict.get_del_ne rest k0 k2 h]
    · by_cases hk2 : k0 = k2
      · simp [PyDict.del, PyDict.get, hk, hk2, h]
      · simp [PyDict.del, PyDict.get, hk, hk2,
          PyDict.get_del_ne rest k k2 h]

/-! ## C8: pruneInto step and frame lemmas -/

/-- The `pruneInto` step when the field's key is absent. -/
theorem FieldList.pruneInto_cons_none {k0 : String} {f : FieldSpec}
    {rest : FieldList} {es : PyDict} (h : es.get (.str k0) = Option.none) :
    FieldList.pruneInto (.cons k0 f rest) es = FieldList.pruneInto rest es := by
  simp only [FieldList.pruneInto, h]

/-- The `pruneInto` step when the field's key is present and the field prunes. -/
theorem FieldList.pruneInto_cons_some {k0 : String} {f : FieldSpec}
    {rest : FieldList} {es : PyDict} {v : PyVal} {b : Bool} {v2 : PyVal}
    (hget : es.get (.str k0) = some v)
    (hpd : FieldSpec.pruneData f v = some (b, v2)) :
    FieldList.pruneInto (.cons k0 f rest) es
      = FieldList.pruneInto rest
          (if b then es.del (.str k0) else es.set (.str k0) v2) := by
  simp only [FieldList.pruneInto, hget, hpd]

/-- The `pruneInto` step when the field's key is present but pruning the slice
fails (wrong shape). -/
theorem FieldList.pruneInto_cons_fail {k0 : String} {f : FieldSpec}
    {rest : FieldList} {es : PyDict} {v : PyVal}
    (hget : es.get (.str k0) = some v)
    (hpd : FieldSpec.pruneData f v = Option.none) :
    FieldList.pruneInto (.cons k0 f rest) es = Option.none := by
  simp only [FieldList.pruneInto, hget, hpd]

/-- Fact: `pruneInto` never introduces keys: a key absent from the input dict is
absent from the output dict. -/
theorem FieldList.pruneInto_get_none : ∀ (fl : FieldList) (es es2 : PyDict)
    (k : PyVal), FieldList.pruneInto fl es = some es2 →
    es.get k = Option.none → es2.get k = Option.none
  | .nil, es, es2, k, h, hk => by
    simp only [FieldList.pruneInto, Option.some.injEq] at h
    exact h ▸ hk
  | .cons k0 f rest, es, es2, k, h, hk => by
    rcases hget : es.get (.str k0) with _ | v
    · rw [FieldList.pruneInto_cons_none hget] at h
      exact FieldList.pruneInto_get_none rest es es2 k h hk
    · rcases hpd : FieldSpec.pruneData f v with _ | bv
      · rw [FieldList.pruneInto_cons_fail hget hpd] at h
        exact Option.noConfusion h
      · obtain ⟨b, v2⟩ := bv
        rw [FieldList.pruneInto_cons_some hget hpd] at h
        have hne : k ≠ PyVal.str k0 := by
          intro he
          rw [he, hget] at hk
          exact Option.noConfusion hk
        cases b with
        | true =>
          refine FieldList.pruneInto_get_none rest _ es2 k h ?_
          rw [if_pos rfl] at h ⊢
          rw [PyDict.get_del_ne es (.str k0) k hne]
          exact hk
        | false =>
          refine FieldList.pruneInto_get_none rest _ es2 k h ?_
          rw [if_neg (by simp)] at h ⊢
          rw [PyDict.get_set_ne es (.str k0) v2 k hne]
          exact hk
  termination_by fl => sizeOf fl

/-- Fact: `pruneInto` does not touch keys outside the field list's key set. -/
theorem FieldList.pruneInto_get_fresh : ∀ (fl : FieldList) (es es2 : PyDict)
    (k : String), k ∉ FieldList.keys fl →
    FieldList.pruneInto fl es = some es2 →
    es2.get (.str k) = es.get (.str k)
  | .nil, es, es2, k, _, h => by
    simp only [FieldList.pruneInto, Option.some.injEq] at h
    rw [h]
  | .cons k0 f rest, es, es2, k, hk, h => by
    have hkrest : k ∉ FieldList.keys rest := by
      intro hmem
      exact hk (by simp [FieldList.keys, hmem])
    have hkne : (PyVal.str k) ≠ (PyVal.str k0) := by
      intro he
      injection he with he2
      exact hk (by simp [FieldList.keys, he2])
    rcases hget : es.get (.str k0) with _ | v
    · rw [FieldList.pruneInto_cons_none hget] at h
      exact FieldList.pruneInto_get_fresh rest es es2 k hkrest h
    · rcases hpd : FieldSpec.pruneData f v with _ | bv
      · rw [FieldList.pruneInto_cons_fail hget hpd] at h
        exact Option.noConfusion h
      · obtain ⟨b, v2⟩ := bv
        rw [FieldList.pruneInto_cons_some hget hpd] at h
        cases b with
        | true =>
          rw [if_pos rfl] at h
          rw [FieldList.pruneInto_get_fresh rest _ es2 k hkrest h]
          exact PyDict.get_del_ne es (.str k0) (.str k) hkne
        | false =>
          rw [if_neg (by simp)] at h
          rw [FieldList.pruneInto_get_fresh rest _ es2 k hkrest h]
          exact PyDict.get_set_ne es (.str k0) v2 (.str k) hkne
  termination_by fl => sizeOf fl

/-- Element pruning preserves list length, hence emptiness. -/
theorem Schema.pruneElems_isEmpty (sch : Schema) (xs xs2 : PyList)
    (h : Schema.pruneElems sch xs = some xs2) : xs2.isEmpty = xs.isEmpty := by
  cases xs with
  | nil =>
    simp only [Schema.pruneElems, Option.some.injEq] at h
    rw [← h]
  | cons x xs =>
    simp only [Schema.pruneElems] at h
    rcases hx : Schema.prune_fields_data sch x with _ | x2 <;> rw [hx] at h
    · exact absurd h (by simp)
    · rcases hxs : Schema.pruneElems sch xs with _ | xs3 <;> rw [hxs] at h
      · exact absurd h (by simp)
      · simp only [Option.some.injEq] at h
        rw [← h]
        rfl

/-- Entry-value pruning preserves dict emptiness. -/
theorem Schema.pruneVals_isEmpty (sch : Schema) (es es2 : PyDict)
    (h : Schema.pruneVals sch es = some es2) : es2.isEmpty = es.isEmpty := by
  cases es with
  | nil =>
    simp only [Schema.pruneVals, Option.some.injEq] at h
    rw [← h]
  | cons k v rest =>
    simp only [Schema.pruneVals] at h
    rcases hv : Schema.prune_fields_data sch v with _ | v2 <;> rw [hv] at h
    · exact absurd h (by simp)
    · rcases hr : Schema.pruneVals sch rest with _ | rest2 <;> rw [hr] at h
      · exact absurd h (by simp)
      · simp only [Option.some.injEq] at h
        rw [← h]
        rfl

/-! ## C8: idempotence of pruning -/

mutual
theorem FieldSpec.pruneData_idem : ∀ (f : FieldSpec), FieldSpec.wf f = true →
    ∀ (d : PyVal) (b : Bool) (d2 : PyVal),
    FieldSpec.pruneData f d = some (b, d2) →
    FieldSpec.pruneData f d2 = some (b, d2)
  | .scalar tv sd, _, d, b, d2, h => by
    simp only [FieldSpec.pruneData, Option.some.injEq, Prod.mk.injEq] at h
    obtain ⟨h1, h2⟩ := h
    subst h2
    simp [FieldSpec.pruneData, h1]
  | .compound sch sd, hwf, d, b, d2, h => by
    have hwfs : Schema.wf sch = true := by simpa [FieldSpec.wf] using hwf
    simp only [FieldSpec.pruneData, Schema.pruneData] at h ⊢
    rcases hp : Schema.prune_fields_data sch d with _ | d3 <;> rw [hp] at h
    · exact absurd h (by simp)
    · simp only [Option.some.injEq, Prod.mk.injEq] at h
      obtain ⟨hb, hd⟩ := h
      subst hd
      rw [Schema.prune_fields_data_idem sch hwfs d d3 hp]
      simp [hb]
  | .listF tv sd, _, d, b, d2, h => by
    simp only [FieldSpec.pruneData, Option.some.injEq, Prod.mk.injEq] at h
    obtain ⟨h1, h2⟩ := h
    subst h2
    simp [FieldSpec.pruneData, h1]
  | .dictF kt tv sd, _, d, b, d2, h => by
    simp only [FieldSpec.pruneData, Option.some.injEq, Prod.mk.injEq] at h
    obtain ⟨h1, h2⟩ := h
    subst h2
    simp [FieldSpec.pruneData, h1]
  | .compoundList sch sd, hwf, d, b, d2, h => by
    have hwfs : Schema.wf sch = true := by simpa [FieldSpec.wf] using hwf
    cases d with
    | list xs =>
      simp only [FieldSpec.pruneData] at h
      rcases hp : Schema.pruneElems sch xs with _ | xs2 <;> rw [hp] at h
      · exact absurd h (by simp)
      · simp only [Option.some.injEq, Prod.mk.injEq] at h
        obtain ⟨hb, hd⟩ := h
        subst hd
        have hidem := Schema.pruneElems_idem sch hwfs xs xs2 hp
        have hemp := Schema.pruneElems_isEmpty sch xs xs2 hp
        simp only [FieldSpec.pruneData, hidem, hemp, hb]
    | none => simp [FieldSpec.pruneData] at h
    | bool b0 => simp [FieldSpec.pruneData] at h
    | int n => simp [FieldSpec.pruneData] at h
    | str s => simp [FieldSpec.pruneData] at h
    | dict es => simp [FieldSpec.pruneData] at h
  | .compoundDict kt sch sd, hwf, d, b, d2, h => by
    have hwfs : Schema.wf sch = true := by simpa [FieldSpec.wf] using hwf
    cases d with
    | dict es =>
      simp only [FieldSpec.pruneData] at h
      rcases hp : Schema.pruneVals sch es with _ | es2 <;> rw [hp] at h
      · exact absurd h (by simp)
      · simp only [Option.some.injEq, Prod.mk.injEq] at h
        obtain ⟨hb, hd⟩ := h
        subst hd
        have hidem := Schema.pruneVals_idem sch hwfs es es2 hp
        have hemp := Schema.pruneVals_isEmpty sch es es2 hp
        simp only [FieldSpec.pruneData, hidem, hemp, hb]
    | none => simp [FieldSpec.pruneData] at h
    | bool b0 => simp [FieldSpec.pruneData] at h
    | int n => simp [FieldSpec.pruneData] at h
    | str s => simp [FieldSpec.pruneData] at h
    | list xs => simp [FieldSpec.pruneData] at h
  termination_by f _ _ _ _ _ => (sizeOf f, 0)

theorem Schema.prune_fields_data_idem : ∀ (sch : Schema),
    Schema.wf sch = true → ∀ (d d2 : PyVal),
    Schema.prune_fields_data sch d = some d2 →
    Schema.prune_fields_data sch d2 = some d2
  | .mk fl, hwf, d, d2, h => by
    have hwf2 := hwf
    simp only [Schema.wf, Bool.and_eq_true, decide_eq_true_eq] at hwf2
    cases d with
    | dict es =>
      simp only [Schema.prune_fields_data] at h
      rcases hp : FieldList.pruneInto fl es with _ | es2 <;> rw [hp] at h
      · exact absurd h (by simp)
      · simp only [Option.some.injEq] at h
        subst h
        have hidem := FieldList.pruneInto_idem fl hwf2.2 hwf2.1 es es2 hp
        simp only [Schema.prune_fields_data, hidem]
    | none => simp [Schema.prune_fields_data] at h
    | bool b0 => simp [Schema.prune_fields_data] at h
    | int n => simp [Schema.prune_fields_data] at h
    | str s => simp [Schema.prune_fields_data] at h
    | list xs => simp [Schema.prune_fields_data] at h
  termination_by sch _ _ _ _ => (sizeOf sch, 1)

theorem Schema.pruneElems_idem : ∀ (sch : Schema), Schema.wf sch = true →
    ∀ (xs xs2 : PyList), Schema.pruneElems sch xs = some xs2 →
    Schema.pruneElems sch xs2 = some xs2
  | sch, _, .nil, xs2, h => by
    simp only [Schema.pruneElems, Option.some.injEq] at h
    subst h
    simp [Schema.pruneElems]
  | sch, hwf, .cons x xs, xs2, h => by
    simp only [Schema.pruneElems] at h
    rcases hx : Schema.prune_fields_data sch x with _ | x2 <;> rw [hx] at h
    · exact absurd h (by simp)
    · rcases hxs : Schema.pruneElems sch xs with _ | xs3 <;> rw [hxs] at h
      · exact absurd h (by simp)
      · simp only [Option.some.injEq] at h
        subst h
        have h1 := Schema.prune_fields_data_idem sch hwf x x2 hx
        have h2 := Schema.pruneElems_idem sch hwf xs xs3 hxs
        simp only [Schema.pruneElems, h1, h2]
  termination_by sch _ xs _ _ => (sizeOf sch, 2 + sizeOf xs)

theorem Schema.pruneVals_idem : ∀ (sch : Schema), Schema.wf sch = true →
    ∀ (es es2 : PyDict), Schema.pruneVals sch es = some es2 →
    Schema.pruneVals sch es2 = some es2
  | sch, _, .nil, es2, h => by
    simp only [Schema.pruneVals, Option.some.injEq] at h
    subst h
    simp [Schema.pruneVals]
  | sch, hwf, .cons k v rest, es2, h => by
    simp only [Schema.pruneVals] at h
    rcases hv : Schema.prune_fields_data sch v with _ | v2 <;> rw [hv] at h
    · exact absurd h (by simp)
    · rcases hr : Schema.pruneVals sch rest with _ | rest2 <;> rw [hr] at h
      · exact absurd h (by simp)
      · simp only [Option.some.injEq] at h
        subst h
        have h1 := Schema.prune_fields_data_idem sch hwf v v2 hv
        have h2 := Schema.pruneVals_idem sch hwf rest rest2 hr
        simp only [Schema.pruneVals, h1, h2]
  termination_by sch _ es _ _ => (sizeOf sch, 2 + sizeOf es)

theorem FieldList.pruneInto_idem : ∀ (fl : FieldList),
    FieldList.wf fl = true → (FieldList.keys fl).Nodup →
    ∀ (es es2 : PyDict), FieldList.pruneInto fl es = some es2 →
    FieldList.pruneInto fl es2 = some es2
  | .nil, _, _, es, es2, h => by
    simp only [FieldList.pruneInto, Option.some.injEq] at h
    subst h
    simp [FieldList.pruneInto]
  | .cons k0 f rest, hwf, hnd, es, es2, h => by
    have hparts : FieldSpec.wf f = true ∧ FieldList.wf rest = true := by
      simpa [FieldList.wf, Bool.and_eq_true] using hwf
    have hk0 : k0 ∉ FieldList.keys rest ∧ (FieldList.keys rest).Nodup := by
      simpa [FieldList.keys, List.nodup_cons] using hnd
    rcases hget : es.get (.str k0) with _ | v
    · rw [FieldList.pruneInto_cons_none hget] at h
      have hg2 : es2.get (.str k0) = Option.none :=
        FieldList.pruneInto_get_none rest es es2 (.str k0) h hget
      rw [FieldList.pruneInto_cons_none hg2]
      exact FieldList.pruneInto_idem rest hparts.2 hk0.2 es es2 h
    · rcases hpd : FieldSpec.pruneData f v with _ | bv
      · rw [FieldList.pruneInto_cons_fail hget hpd] at h
        exact Option.noConfusion h
      · obtain ⟨b, v2⟩ := bv
        rw [FieldList.pruneInto_cons_some hget hpd] at h
        cases b with
        | true =>
          rw [if_pos rfl] at h
          have hg2 : es2.get (.str k0) = Option.none := by
            rw [FieldList.pruneInto_get_fresh rest _ es2 k0 hk0.1 h]
            exact PyDict.get_del_self es (.str k0)
          rw [FieldList.pruneInto_cons_none hg2]
          exact FieldList.pruneInto_idem rest hparts.2 hk0.2 _ es2 h
        | false =>
          rw [if_neg (by simp)] at h
          have hg2 : es2.get (.str k0) = some v2 := by
            rw [FieldList.pruneInto_get_fresh rest _ es2 k0 hk0.1 h]
            exact PyDict.get_set_self es (.str k0) v2
          have hpd2 : FieldSpec.pruneData f v2 = some (false, v2) :=
            FieldSpec.pruneData_idem f hparts.1 v false v2 hpd
          rw [FieldList.pruneInto_cons_some hg2 hpd2]
          rw [if_neg (by simp)]
          rw [PyDict.set_self es2 (.str k0) v2 hg2]
          exact FieldList.pruneInto_idem rest hparts.2 hk0.2 _ es2 h
  termination_by fl _ _ _ _ _ => (sizeOf fl, 0)
end

/-- C8: pruning is idempotent.  For every well-formed field descriptor (of
any of the six variants) and every slice, if `prune_data` completes with
flag `b` and element-pruned final data `d2`, then running `prune_data` again
on `d2` yields the same flag and the same data. -/
theorem C8_prune_idempotent (f : FieldSpec) (hwf : FieldSpec.wf f = true)
    (d : PyVal) (b : Bool) (d2 : PyVal)
    (h : FieldSpec.pruneData f d = some (b, d2)) :
    FieldSpec.pruneData f d2 = some (b, d2) :=
  FieldSpec.pruneData_idem f hwf d b d2 h

/-- C8 witness: pruning the compound-list slice `[{"a": 0}]` over `schemaA`
empties the element; pruning the result `[{}]` again returns the same flag
and data, as concluded by applying `C8_prune_idempotent` at this input. -/
theorem C8_prune_idempotent_witness :
    FieldSpec.pruneData (.compoundList schemaA false)
        (.list (.cons (.dict .nil) .nil))
      = some (false, .list (.cons (.dict .nil) .nil)) :=
  C8_prune_idempotent (.compoundList schemaA false) (by decide)
    sliceA false (.list (.cons (.dict .nil) .nil))
    (by simp [sliceA, schemaA, tvInt0, FieldSpec.pruneData, Schema.pruneElems,
      Schema.prune_fields_data, FieldList.pruneInto, PyDict.get, PyDict.del,
      TypedValue.prune_data, PyList.isEmpty])

end BaFoundation
